import Mathlib

/-!
# cli-kick: kick-drum synthesiser and 24-bit WAV writer

A shallow embedding of `src/main.c` (`generateKick`, `writeWav24Bit` and the part of
`main` that calls them) together with properties of that code.

Modelling conventions.

* A C `float` is a rational number and float arithmetic is exact rational
  arithmetic: the rounding error of the binary32 operations, infinities and NaN
  are not part of the model.  Decimal constants such as `0.001f` stand for the
  decimal they spell.
* `sinf` comes from the C library and is a parameter of the synthesiser.
* `lrintf` is the C library rounding in the default rounding mode (to nearest,
  ties to even); the program never changes the rounding mode.
* `size_t`, `unsigned int`, `unsigned short` and `unsigned char` values are natural
  numbers, reduced modulo `2 ^ w` at the places where the C value can wrap; `int`
  values are integers.
* A `FILE *` is a `File` record: the bytes accepted so far, the number of write
  calls made, and a schedule telling which write calls the sink rejects.
* The sample buffer is a function from indices to samples together with a length,
  as the C code receives a pointer and a count.
-/

namespace Kick

/-! ## Output sink -/

/-- State of an output stream: `bytes` are the bytes accepted so far, `calls` counts
the write calls issued, `failAt k` tells whether the `k`-th write call is rejected. -/
structure File where
  bytes : List ℕ
  calls : ℕ
  failAt : ℕ → Bool

/-- One write call on the stream: a rejected call leaves the bytes untouched. -/
def File.write (fp : File) (data : List ℕ) : File :=
  if fp.failAt fp.calls then
    { fp with calls := fp.calls + 1 }
  else
    { fp with bytes := fp.bytes ++ data, calls := fp.calls + 1 }

/-- C library `fputs(s, fp)`: the characters of `s`, without a terminator. -/
def fputs (s : String) (fp : File) : File :=
  fp.write (s.toList.map Char.toNat)

/-- Object representation of a 2-byte unsigned value on a little-endian host. -/
def bytes2 (v : ℕ) : List ℕ :=
  [v % 256, v / 256 % 256]

/-- Object representation of a 4-byte unsigned value on a little-endian host. -/
def bytes4 (v : ℕ) : List ℕ :=
  [v % 256, v / 256 % 256, v / 65536 % 256, v / 16777216 % 256]

/-- C library `fwrite(ptr, size, 1, fp)` where `data` is the object at `ptr`. -/
def fwrite (data : List ℕ) (fp : File) : File :=
  fp.write data

/-! ## `writeWav24Bit` -/

/-- Line 108, `unsigned int dataChunkSize = (unsigned int)(numSamples * 3);`:
a 64-bit `size_t` product truncated to 32 bits. -/
def dataChunkSize (numSamples : ℕ) : ℕ :=
  (numSamples * 3 % 2 ^ 64) % 2 ^ 32

/-- Line 110, `unsigned int chunkSize = 36 + subchunk2Size;`. -/
def chunkSize (numSamples : ℕ) : ℕ :=
  (36 + dataChunkSize numSamples) % 2 ^ 32

/-- Line 127, `unsigned int sRate = (unsigned int)sampleRate;`. -/
def sRate (sampleRate : ℤ) : ℕ :=
  (sampleRate % 2 ^ 32).toNat

/-- Line 129,
`unsigned short blockAlign = (unsigned short)(numChannels * (bitsPerSample / 8));`, with `numChannels = 1` and `bitsPerSample = 24`. -/
def blockAlign : ℕ :=
  (1 * (24 / 8)) % 2 ^ 16

/-- Line 130, `unsigned int byteRate = sRate * blockAlign;`. -/
def byteRate (sampleRate : ℤ) : ℕ :=
  (sRate sampleRate * blockAlign) % 2 ^ 32

/-- Lines 112-141 of `writeWav24Bit`: the thirteen header writes, in order. -/
def writeHeader (fp : File) (numSamples : ℕ) (sampleRate : ℤ) : File :=
  let fp := fputs "RIFF" fp
  let fp := fwrite (bytes4 (chunkSize numSamples)) fp
  let fp := fputs "WAVE" fp
  let fp := fputs "fmt " fp
  let fp := fwrite (bytes4 16) fp
  let fp := fwrite (bytes2 1) fp
  let fp := fwrite (bytes2 1) fp
  let fp := fwrite (bytes4 (sRate sampleRate)) fp
  let fp := fwrite (bytes4 (byteRate sampleRate)) fp
  let fp := fwrite (bytes2 blockAlign) fp
  let fp := fwrite (bytes2 24) fp
  let fp := fputs "data" fp
  fwrite (bytes4 (dataChunkSize numSamples)) fp

/-- Lines 146-149: clip to `[-1, 1]`. -/
def clipUnit (val : ℚ) : ℚ :=
  let val := if val > 1 then 1 else val
  if val < -1 then -1 else val

/-- C library `lrintf` in the default rounding mode: the nearest integer, a tie
going to the even neighbour. -/
def lrintf (x : ℚ) : ℤ :=
  let f := ⌊x⌋
  let d := x - f
  if d < 1 / 2 then f
  else if 1 / 2 < d then f + 1
  else if f % 2 = 0 then f
  else f + 1

/-- Lines 154-161: scale, round, clip to the 24-bit range. -/
def quantise (val : ℚ) : ℤ :=
  let scaled := val * 8388607
  let sample := lrintf scaled
  let sample := if sample > 8388607 then 8388607 else sample
  if sample < -8388608 then -8388608 else sample

/-- Lines 146-161: the `int sample` computed for the buffer value `val`. -/
def sample24 (val : ℚ) : ℤ :=
  quantise (clipUnit val)

/-- Line 164, `(unsigned char)(sample & 0xFF)`. -/
def byte1 (sample : ℤ) : ℕ :=
  (sample % 256).toNat

/-- Line 165, `(unsigned char)((sample >> 8) & 0xFF)`: the shift is arithmetic. -/
def byte2 (sample : ℤ) : ℕ :=
  (sample / 256 % 256).toNat

/-- Line 166, `(unsigned char)((sample >> 16) & 0xFF)`: the shift is arithmetic. -/
def byte3 (sample : ℤ) : ℕ :=
  (sample / 65536 % 256).toNat

/-- Body of the sample loop (lines 146-170) for the buffer value `val`. -/
def writeSample (fp : File) (val : ℚ) : File :=
  let sample := sample24 val
  let fp := fwrite [byte1 sample] fp
  let fp := fwrite [byte2 sample] fp
  fwrite [byte3 sample] fp

/-- The loop `for (i = 0; i < numSamples; i++)` of lines 145-171; the first
argument is the number of iterations left, `numSamples - i`. -/
def writeSamples (buffer : ℕ → ℚ) : ℕ → ℕ → File → File
  | 0, _, fp => fp
  | k + 1, i, fp => writeSamples buffer k (i + 1) (writeSample fp (buffer i))

/-- The function `void writeWav24Bit(FILE *fp, const float *buffer, size_t numSamples,
int sampleRate)`: the result is the stream afterwards; the function itself
returns nothing. -/
def writeWav24Bit (fp : File) (buffer : ℕ → ℚ) (numSamples : ℕ) (sampleRate : ℤ) : File :=
  writeSamples buffer numSamples 0 (writeHeader fp numSamples sampleRate)

/-! ## `generateKick` -/

/-- The constant `#define TWO_PI 6.283185307f`. -/
def TWO_PI : ℚ := 6.283185307

/-- The struct `KickParams`. -/
structure KickParams where
  tune : ℚ
  attack : ℚ
  decay : ℚ
  level : ℚ

/-- Conversion `(size_t)x` of a float: truncation toward zero.  C defines it for
`-1 < x < 2 ^ 64` only; outside that range the model yields `0` for negative `x`
and the integer part otherwise. -/
def toSizeT (x : ℚ) : ℕ :=
  ⌊x⌋.toNat

/-- The locals of `generateKick` that the loop only reads (lines 24-52). -/
structure Locals where
  attackSamples : ℕ
  decaySamples : ℕ
  clickSamples : ℕ
  baseFreq : ℚ
  startFreq : ℚ
  sampleRate : ℚ
  level : ℚ

/-- Line 24, `float attackTime = 0.001f + (0.005f * params.attack);` -/
def attackTime (params : KickParams) : ℚ :=
  0.001 + 0.005 * params.attack

/-- Line 25, `float decayTime = 0.15f + (0.3f * params.decay);` -/
def decayTime (params : KickParams) : ℚ :=
  0.15 + 0.3 * params.decay

/-- Line 28, `float baseFreq = 40.0f + (40.0f * params.tune);` -/
def baseFreq (params : KickParams) : ℚ :=
  40 + 40 * params.tune

/-- Line 29, `float startFreq = 300.0f + (200.0f * params.tune);` -/
def startFreq (params : KickParams) : ℚ :=
  300 + 200 * params.tune

/-- Line 51, `float clickDuration = 0.0005f;` -/
def clickDuration : ℚ := 0.0005

/-- Lines 24-52: the loop constants for a sample rate and a parameter set. -/
def locals (sampleRate : ℚ) (params : KickParams) : Locals where
  attackSamples := toSizeT (attackTime params * sampleRate)
  decaySamples := toSizeT (decayTime params * sampleRate)
  clickSamples := toSizeT (clickDuration * sampleRate)
  baseFreq := baseFreq params
  startFreq := startFreq params
  sampleRate := sampleRate
  level := params.level

/-- Lines 37-39, `ampIncrement`. -/
def Locals.ampIncrement (L : Locals) : ℚ :=
  if L.attackSamples > 0 then 1 / (L.attackSamples : ℚ) else 1

/-- Lines 40-42, `ampDecayRate`. -/
def Locals.ampDecayRate (L : Locals) : ℚ :=
  if L.decaySamples > 0 then 1 / (L.decaySamples : ℚ) else 1

/-- Lines 46-48, `pitchIncrement`. -/
def Locals.pitchIncrement (L : Locals) : ℚ :=
  if L.decaySamples > 0 then 1 / (L.decaySamples : ℚ) else 1

/-- The locals the loop updates: `amp`, `pitchEnv` and `phase`. -/
structure KickState where
  amp : ℚ
  pitchEnv : ℚ
  phase : ℚ

/-- Values before the first iteration (lines 36, 45, 54). -/
def KickState.init : KickState :=
  ⟨0, 0, 0⟩

/-- Amplitude envelope update (lines 58-66) at index `n`. -/
def nextAmp (L : Locals) (n : ℕ) (amp : ℚ) : ℚ :=
  if n < L.attackSamples then
    let amp := amp + L.ampIncrement
    if amp > 1 then 1 else amp
  else
    let amp := amp - L.ampDecayRate
    if amp < 0 then 0 else amp

/-- Pitch envelope update (lines 69-72) at index `n`. -/
def nextPitchEnv (L : Locals) (n : ℕ) (pitchEnv : ℚ) : ℚ :=
  if n < L.decaySamples then
    let pitchEnv := pitchEnv + L.pitchIncrement
    if pitchEnv > 1 then 1 else pitchEnv
  else pitchEnv

/-- Lines 74-75, `currFreq`, for the updated pitch envelope. -/
def currFreq (L : Locals) (pitchEnv : ℚ) : ℚ :=
  L.startFreq * (1 - pitchEnv) + L.baseFreq * pitchEnv

/-- Phase update (lines 79-82): increment, then a single conditional subtraction. -/
def nextPhase (L : Locals) (freq : ℚ) (phase : ℚ) : ℚ :=
  let phase := phase + TWO_PI * freq / L.sampleRate
  if phase > TWO_PI then phase - TWO_PI else phase

/-- One iteration of the loop body (lines 57-94) at index `n`: the updated locals
and the value stored in `buffer[n]`. -/
def kickBody (sinf : ℚ → ℚ) (L : Locals) (n : ℕ) (s : KickState) : KickState × ℚ :=
  let amp := nextAmp L n s.amp
  let pitchEnv := nextPitchEnv L n s.pitchEnv
  let freq := currFreq L pitchEnv
  let sampleValue := sinf s.phase
  let phase := nextPhase L freq s.phase
  let sampleValue := if n < L.clickSamples then sampleValue + 0.5 else sampleValue
  let sampleValue := sampleValue * (amp * L.level)
  (⟨amp, pitchEnv, phase⟩, sampleValue)

/-- The loop `for (n = 0; n < numSamples; n++)` of lines 56-95 as the sequence of
stores `buffer[n] = sampleValue` it performs, in program order; the first argument
is the number of iterations left, `numSamples - n`. -/
def kickLoop (sinf : ℚ → ℚ) (L : Locals) : ℕ → ℕ → KickState → List (ℕ × ℚ)
  | 0, _, _ => []
  | k + 1, n, s =>
    (n, (kickBody sinf L n s).2) :: kickLoop sinf L k (n + 1) (kickBody sinf L n s).1

/-- The stores performed by one call of `generateKick`. -/
def kickStores (sinf : ℚ → ℚ) (numSamples : ℕ) (sampleRate : ℚ) (params : KickParams) :
    List (ℕ × ℚ) :=
  kickLoop sinf (locals sampleRate params) numSamples 0 KickState.init

/-- The function `void generateKick(float *buffer, size_t numSamples, float sampleRate,
KickParams params)`: the buffer after the call. -/
def generateKick (sinf : ℚ → ℚ) (buffer : ℕ → ℚ) (numSamples : ℕ) (sampleRate : ℚ)
    (params : KickParams) : ℕ → ℚ :=
  (kickStores sinf numSamples sampleRate params).foldl
    (fun b st => Function.update b st.1 st.2) buffer

/-- The locals `amp`, `pitchEnv`, `phase` after `n` iterations of the loop. -/
def stateAfter (sinf : ℚ → ℚ) (L : Locals) : ℕ → KickState
  | 0 => KickState.init
  | n + 1 => (kickBody sinf L n (stateAfter sinf L n)).1

/-- The value the iteration with index `n` stores in `buffer[n]`. -/
def sampleAt (sinf : ℚ → ℚ) (L : Locals) (n : ℕ) : ℚ :=
  (kickBody sinf L n (stateAfter sinf L n)).2

/-! ## `main` -/

/-- Conversion `(int)x` of a float: truncation toward zero. -/
def toInt (x : ℚ) : ℤ :=
  if 0 ≤ x then ⌊x⌋ else ⌈x⌉

/-- Lines 193-234 of `main` once the arguments are parsed and the output stream is
open: `numSamples = (size_t)(48000.0f * 1.0f)`, a zeroed buffer, `generateKick`,
`writeWav24Bit`, and the exit status `0`. -/
def mainBody (sinf : ℚ → ℚ) (params : KickParams) (outFile : File) : File × ℤ :=
  let sampleRate : ℚ := 48000
  let duration : ℚ := 1
  let numSamples := toSizeT (sampleRate * duration)
  let buffer := generateKick sinf (fun _ => 0) numSamples sampleRate params
  let outFile := writeWav24Bit outFile buffer numSamples (toInt sampleRate)
  (outFile, 0)

/-! ## Derived notions used in the statements -/

/-- A stream on which nothing has been written yet, with the given failure schedule. -/
def File.fresh (failAt : ℕ → Bool) : File :=
  ⟨[], 0, failAt⟩

/-- The bytes one call of `writeWav24Bit` appends to the stream. -/
def emitted (fp : File) (buffer : ℕ → ℚ) (numSamples : ℕ) (sampleRate : ℤ) : List ℕ :=
  (writeWav24Bit fp buffer numSamples sampleRate).bytes.drop fp.bytes.length

/-- The data of the thirteen header writes, concatenated. -/
def wavHeader (numSamples : ℕ) (sampleRate : ℤ) : List ℕ :=
  [82, 73, 70, 70] ++ bytes4 (chunkSize numSamples) ++ [87, 65, 86, 69] ++ [102, 109, 116, 32]
    ++ bytes4 16 ++ bytes2 1 ++ bytes2 1 ++ bytes4 (sRate sampleRate)
    ++ bytes4 (byteRate sampleRate) ++ bytes2 blockAlign ++ bytes2 24 ++ [100, 97, 116, 97]
    ++ bytes4 (dataChunkSize numSamples)

/-- The data of the three writes of one loop iteration. -/
def sampleBytes (val : ℚ) : List ℕ :=
  [byte1 (sample24 val), byte2 (sample24 val), byte3 (sample24 val)]

/-- The data of the writes of `k` loop iterations starting at index `i`. -/
def dataBytes (buffer : ℕ → ℚ) : ℕ → ℕ → List ℕ
  | 0, _ => []
  | k + 1, i => sampleBytes (buffer i) ++ dataBytes buffer k (i + 1)

/-- Reading a byte sequence as a little-endian unsigned number. -/
def leValue : List ℕ → ℕ
  | [] => 0
  | b :: bs => b + 256 * leValue bs

/-- Reading a number below `2 ^ 24` as a signed 24-bit two-complement value. -/
def signed24 (u : ℕ) : ℤ :=
  if u < 2 ^ 23 then (u : ℤ) else (u : ℤ) - 2 ^ 24

/-! ## Sink lemmas -/

theorem File.write_failAt (fp : File) (data : List ℕ) : (fp.write data).failAt = fp.failAt := by
  unfold File.write; split <;> rfl

theorem File.write_calls (fp : File) (data : List ℕ) : (fp.write data).calls = fp.calls + 1 := by
  unfold File.write; split <;> rfl

theorem File.write_bytes (fp : File) (data : List ℕ) (hok : ∀ k, fp.failAt k = false) :
    (fp.write data).bytes = fp.bytes ++ data := by
  unfold File.write; simp [hok]

theorem fputs_failAt (s : String) (fp : File) : (fputs s fp).failAt = fp.failAt :=
  File.write_failAt _ _
theorem fwrite_failAt (d : List ℕ) (fp : File) : (fwrite d fp).failAt = fp.failAt :=
  File.write_failAt _ _
theorem fputs_calls (s : String) (fp : File) : (fputs s fp).calls = fp.calls + 1 :=
  File.write_calls _ _
theorem fwrite_calls (d : List ℕ) (fp : File) : (fwrite d fp).calls = fp.calls + 1 :=
  File.write_calls _ _
theorem fputs_bytes (s : String) (fp : File) (hok : ∀ k, fp.failAt k = false) :
    (fputs s fp).bytes = fp.bytes ++ s.toList.map Char.toNat :=
  File.write_bytes _ _ hok
theorem fwrite_bytes (d : List ℕ) (fp : File) (hok : ∀ k, fp.failAt k = false) :
    (fwrite d fp).bytes = fp.bytes ++ d :=
  File.write_bytes _ _ hok

theorem writeHeader_failAt (fp : File) (n : ℕ) (r : ℤ) :
    (writeHeader fp n r).failAt = fp.failAt := by
  simp [writeHeader, fputs_failAt, fwrite_failAt]

theorem writeHeader_calls (fp : File) (n : ℕ) (r : ℤ) :
    (writeHeader fp n r).calls = fp.calls + 13 := by
  simp [writeHeader, fputs_calls, fwrite_calls]

theorem writeHeader_bytes (fp : File) (n : ℕ) (r : ℤ) (hok : ∀ k, fp.failAt k = false) :
    (writeHeader fp n r).bytes = fp.bytes ++ wavHeader n r := by
  simp [writeHeader, fputs_bytes, fwrite_bytes, fputs_failAt, fwrite_failAt, hok, wavHeader]

theorem wavHeader_length (n : ℕ) (r : ℤ) : (wavHeader n r).length = 44 := by
  simp [wavHeader, bytes4, bytes2]

theorem writeSample_failAt (fp : File) (val : ℚ) : (writeSample fp val).failAt = fp.failAt := by
  simp [writeSample, fwrite_failAt]

theorem writeSample_calls (fp : File) (val : ℚ) : (writeSample fp val).calls = fp.calls + 3 := by
  simp [writeSample, fwrite_calls]

theorem writeSample_bytes (fp : File) (val : ℚ) (hok : ∀ k, fp.failAt k = false) :
    (writeSample fp val).bytes = fp.bytes ++ sampleBytes val := by
  simp [writeSample, fwrite_bytes, fwrite_failAt, hok, sampleBytes]

theorem writeSamples_failAt (buffer : ℕ → ℚ) (k i : ℕ) (fp : File) :
    (writeSamples buffer k i fp).failAt = fp.failAt := by
  induction k generalizing i fp with
  | zero => rfl
  | succ k ih => rw [writeSamples, ih, writeSample_failAt]

theorem writeSamples_calls (buffer : ℕ → ℚ) (k i : ℕ) (fp : File) :
    (writeSamples buffer k i fp).calls = fp.calls + 3 * k := by
  induction k generalizing i fp with
  | zero => rfl
  | succ k ih => rw [writeSamples, ih, writeSample_calls]; ring

theorem writeSamples_bytes (buffer : ℕ → ℚ) (k i : ℕ) (fp : File)
    (hok : ∀ j, fp.failAt j = false) :
    (writeSamples buffer k i fp).bytes = fp.bytes ++ dataBytes buffer k i := by
  induction k generalizing i fp with
  | zero => simp [writeSamples, dataBytes]
  | succ k ih =>
    rw [writeSamples, ih _ _ (by rw [writeSample_failAt]; exact hok),
      writeSample_bytes _ _ hok, dataBytes, List.append_assoc]

theorem dataBytes_length (buffer : ℕ → ℚ) (k i : ℕ) : (dataBytes buffer k i).length = 3 * k := by
  induction k generalizing i with
  | zero => rfl
  | succ k ih => rw [dataBytes, List.length_append, ih]; simp [sampleBytes]; ring

theorem dataBytes_drop (buffer : ℕ → ℚ) (j k i : ℕ) :
    (dataBytes buffer (j + k) i).drop (3 * j) = dataBytes buffer k (i + j) := by
  induction j generalizing i with
  | zero => simp
  | succ j ih =>
    have h1 : j + 1 + k = (j + k) + 1 := by ring
    have h2 : 3 * (j + 1) = (sampleBytes (buffer i)).length + 3 * j := by
      simp [sampleBytes]; ring
    rw [h1, dataBytes, h2, List.drop_append, ih]
    congr 1; ring

theorem writeWav24Bit_bytes (fp : File) (buffer : ℕ → ℚ) (n : ℕ) (r : ℤ)
    (hok : ∀ k, fp.failAt k = false) :
    (writeWav24Bit fp buffer n r).bytes = fp.bytes ++ (wavHeader n r ++ dataBytes buffer n 0) := by
  rw [writeWav24Bit, writeSamples_bytes _ _ _ _ (by rw [writeHeader_failAt]; exact hok),
    writeHeader_bytes _ _ _ hok, List.append_assoc]

theorem writeWav24Bit_calls (fp : File) (buffer : ℕ → ℚ) (n : ℕ) (r : ℤ) :
    (writeWav24Bit fp buffer n r).calls = fp.calls + 13 + 3 * n := by
  rw [writeWav24Bit, writeSamples_calls, writeHeader_calls]

theorem emitted_eq (fp : File) (buffer : ℕ → ℚ) (n : ℕ) (r : ℤ)
    (hok : ∀ k, fp.failAt k = false) :
    emitted fp buffer n r = wavHeader n r ++ dataBytes buffer n 0 := by
  rw [emitted, writeWav24Bit_bytes _ _ _ _ hok, List.drop_left]

theorem dataChunkSize_eq (n : ℕ) (h : 3 * n < 2 ^ 32) : dataChunkSize n = 3 * n := by
  unfold dataChunkSize
  omega

theorem chunkSize_eq (n : ℕ) (h : 36 + 3 * n < 2 ^ 32) : chunkSize n = 36 + 3 * n := by
  unfold chunkSize
  rw [dataChunkSize_eq n (by omega)]
  omega

theorem sRate_eq (r : ℤ) (h0 : 0 ≤ r) (h : r < 2 ^ 32) : sRate r = r.toNat := by
  unfold sRate
  rw [Int.emod_eq_of_lt h0 h]

theorem byteRate_eq (r : ℤ) (h0 : 0 ≤ r) (h : 3 * r < 2 ^ 32) : byteRate r = 3 * r.toNat := by
  unfold byteRate blockAlign
  rw [sRate_eq r h0 (by omega)]
  omega

theorem header_take (fp : File) (buffer : ℕ → ℚ) (n : ℕ) (r : ℤ)
    (hok : ∀ k, fp.failAt k = false) :
    (emitted fp buffer n r).take 44 = wavHeader n r := by
  rw [emitted_eq _ _ _ _ hok]
  exact List.take_left' (wavHeader_length n r)

/-- C1: on a sink that rejects no write, for a sample count `n` with `36 + 3 * n < 2 ^ 32`
and a sample rate `r` with `0 ≤ r` and `3 * r < 2 ^ 32`, the first 44 bytes that
`writeWav24Bit` emits are, in order, "RIFF", the little-endian bytes of `36 + 3 * n`,
"WAVE", "fmt ", the little-endian bytes of 16, of 1 (2 bytes), of 1 (2 bytes), of `r`,
of `3 * r`, of 3 (2 bytes), of 24 (2 bytes), "data", and the little-endian bytes of
`3 * n`. -/
theorem writeWav24Bit_header_layout (fp : File) (buffer : ℕ → ℚ) (n : ℕ) (r : ℤ)
    (hok : ∀ k, fp.failAt k = false) (hn : 36 + 3 * n < 2 ^ 32) (hr0 : 0 ≤ r)
    (hr : 3 * r < 2 ^ 32) :
    (emitted fp buffer n r).take 44 =
      "RIFF".toList.map Char.toNat
      ++ [(36 + 3 * n) % 256, (36 + 3 * n) / 256 % 256, (36 + 3 * n) / 65536 % 256,
          (36 + 3 * n) / 16777216 % 256]
      ++ "WAVE".toList.map Char.toNat
      ++ "fmt ".toList.map Char.toNat
      ++ [16, 0, 0, 0]
      ++ [1, 0]
      ++ [1, 0]
      ++ [r.toNat % 256, r.toNat / 256 % 256, r.toNat / 65536 % 256, r.toNat / 16777216 % 256]
      ++ [(3 * r.toNat) % 256, (3 * r.toNat) / 256 % 256, (3 * r.toNat) / 65536 % 256,
          (3 * r.toNat) / 16777216 % 256]
      ++ [3, 0]
      ++ [24, 0]
      ++ "data".toList.map Char.toNat
      ++ [(3 * n) % 256, (3 * n) / 256 % 256, (3 * n) / 65536 % 256,
          (3 * n) / 16777216 % 256] := by
  rw [header_take _ _ _ _ hok, wavHeader, chunkSize_eq n hn, dataChunkSize_eq n (by omega),
    sRate_eq r hr0 (by omega), byteRate_eq r hr0 hr]
  simp [bytes4, bytes2, blockAlign]

theorem writeWav24Bit_header_layout_witness :
    (∀ k, (File.fresh (fun _ => false)).failAt k = false) ∧ 36 + 3 * 48000 < 2 ^ 32
      ∧ (0 : ℤ) ≤ 48000 ∧ 3 * (48000 : ℤ) < 2 ^ 32
      ∧ (emitted (File.fresh (fun _ => false)) (fun _ => 0) 48000 48000).take 44 =
        [82, 73, 70, 70, 164, 50, 2, 0, 87, 65, 86, 69, 102, 109, 116, 32, 16, 0, 0, 0,
         1, 0, 1, 0, 128, 187, 0, 0, 128, 50, 2, 0, 3, 0, 24, 0, 100, 97, 116, 97,
         128, 50, 2, 0] :=
  ⟨fun _ => rfl, by norm_num, by norm_num, by norm_num,
    (writeWav24Bit_header_layout (File.fresh (fun _ => false)) (fun _ => 0) 48000 48000
      (fun _ => rfl) (by norm_num) (by norm_num) (by norm_num)).trans (by decide!)⟩

theorem sample_triple (fp : File) (buffer : ℕ → ℚ) (n : ℕ) (r : ℤ)
    (hok : ∀ k, fp.failAt k = false) (i : ℕ) (hi : i < n) :
    ((emitted fp buffer n r).drop (44 + 3 * i)).take 3 = sampleBytes (buffer i) := by
  obtain ⟨k, rfl⟩ : ∃ k, n = i + (k + 1) := ⟨n - i - 1, by omega⟩
  rw [emitted_eq _ _ _ _ hok, ← wavHeader_length (i + (k + 1)) r, List.drop_append,
    dataBytes_drop, dataBytes, Nat.zero_add]
  exact List.take_left' rfl

theorem emitted_length (fp : File) (buffer : ℕ → ℚ) (n : ℕ) (r : ℤ)
    (hok : ∀ k, fp.failAt k = false) : (emitted fp buffer n r).length = 44 + 3 * n := by
  rw [emitted_eq _ _ _ _ hok, List.length_append, wavHeader_length, dataBytes_length]

/-- C2: on a sink that rejects no write, the byte stream `writeWav24Bit` emits for a
buffer of `n` samples has length exactly `44 + 3 * n`, and for every index `i < n` the
three bytes at offset `44 + 3 * i` are the three bytes of sample `i`: a 44-byte header,
then 3 bytes per sample in buffer order. -/
theorem writeWav24Bit_stream_shape (fp : File) (buffer : ℕ → ℚ) (n : ℕ) (r : ℤ)
    (hok : ∀ k, fp.failAt k = false) :
    (emitted fp buffer n r).length = 44 + 3 * n
      ∧ ∀ i, i < n → ((emitted fp buffer n r).drop (44 + 3 * i)).take 3
          = [byte1 (sample24 (buffer i)), byte2 (sample24 (buffer i)),
             byte3 (sample24 (buffer i))] := by
  exact ⟨emitted_length fp buffer n r hok, fun i hi => sample_triple fp buffer n r hok i hi⟩

theorem writeWav24Bit_stream_shape_witness :
    (∀ k, (File.fresh (fun _ => false)).failAt k = false)
      ∧ (emitted (File.fresh (fun _ => false)) (fun _ => 0) 48000 48000).length = 144044 :=
  ⟨fun _ => rfl,
    (writeWav24Bit_stream_shape (File.fresh (fun _ => false)) (fun _ => 0) 48000 48000
      (fun _ => rfl)).1⟩

theorem header_field (fp : File) (buffer : ℕ → ℚ) (n : ℕ) (r : ℤ)
    (hok : ∀ k, fp.failAt k = false) (a : ℕ) (ha : a ≤ 40) :
    ((emitted fp buffer n r).drop a).take 4 = ((wavHeader n r).drop a).take 4 := by
  rw [emitted_eq _ _ _ _ hok,
    List.drop_append_of_le_length (by rw [wavHeader_length]; omega),
    List.take_append_of_le_length (by rw [List.length_drop, wavHeader_length]; omega)]

theorem leValue_bytes4 (v : ℕ) (h : v < 2 ^ 32) : leValue (bytes4 v) = v := by
  simp only [bytes4, leValue]
  omega

/-- C9, as stated, fails for a large sample count: with `n = 1431655766` the product
`3 * n` does not fit in 32 bits and bytes 40..43 of the header do not read as `3 * n`. -/
theorem subchunk2Size_wraps :
    leValue (((emitted (File.fresh (fun _ => false)) (fun _ => 0) 1431655766 48000).drop 40).take 4)
      ≠ 3 * 1431655766 := by
  rw [header_field _ _ _ _ (fun _ => rfl) 40 (le_refl 40)]
  decide!

/-- C9, amended: on a sink that rejects no write and for a sample count `n` with
`36 + 3 * n < 2 ^ 32`, bytes 40..43 of the header read as the little-endian number
`3 * n`, which is the number of data bytes following the header, and bytes 4..7 read
as `36 + 3 * n`. -/
theorem size_fields_exact (fp : File) (buffer : ℕ → ℚ) (n : ℕ) (r : ℤ)
    (hok : ∀ k, fp.failAt k = false) (hn : 36 + 3 * n < 2 ^ 32) :
    leValue (((emitted fp buffer n r).drop 40).take 4) = 3 * n
      ∧ ((emitted fp buffer n r).drop 44).length = 3 * n
      ∧ leValue (((emitted fp buffer n r).drop 4).take 4) = 36 + 3 * n := by
  refine ⟨?_, ?_, ?_⟩
  · rw [header_field _ _ _ _ hok 40 (le_refl 40)]
    have : ((wavHeader n r).drop 40).take 4 = bytes4 (dataChunkSize n) := by
      simp [wavHeader, bytes4, bytes2]
    rw [this, leValue_bytes4 _ (by unfold dataChunkSize; omega), dataChunkSize_eq n (by omega)]
  · rw [List.length_drop, emitted_length fp buffer n r hok]
    omega
  · rw [header_field _ _ _ _ hok 4 (by omega)]
    have : ((wavHeader n r).drop 4).take 4 = bytes4 (chunkSize n) := by
      simp [wavHeader, bytes4, bytes2]
    rw [this, leValue_bytes4 _ (by unfold chunkSize; omega), chunkSize_eq n hn]

theorem size_fields_exact_witness :
    (∀ k, (File.fresh (fun _ => false)).failAt k = false) ∧ 36 + 3 * 48000 < 2 ^ 32
      ∧ leValue (((emitted (File.fresh (fun _ => false)) (fun _ => 0) 48000 48000).drop 40).take 4)
          = 144000
      ∧ ((emitted (File.fresh (fun _ => false)) (fun _ => 0) 48000 48000).drop 44).length
          = 144000
      ∧ leValue (((emitted (File.fresh (fun _ => false)) (fun _ => 0) 48000 48000).drop 4).take 4)
          = 144036 :=
  ⟨fun _ => rfl, by norm_num,
    size_fields_exact (File.fresh (fun _ => false)) (fun _ => 0) 48000 48000 (fun _ => rfl)
      (by norm_num)⟩

/-! ## Quantisation lemmas -/

theorem clipUnit_eq (x : ℚ) : clipUnit x = max (-1) (min x 1) := by
  unfold clipUnit
  dsimp only
  by_cases h : x > 1
  · rw [if_pos h, if_neg (by norm_num), min_eq_right h.le, max_eq_right (by norm_num)]
  · rw [if_neg h, min_eq_left (not_lt.mp h)]
    by_cases h2 : x < -1
    · rw [if_pos h2, max_eq_left h2.le]
    · rw [if_neg h2, max_eq_right (not_lt.mp h2)]

theorem clipUnit_bounds (x : ℚ) : -1 ≤ clipUnit x ∧ clipUnit x ≤ 1 := by
  rw [clipUnit_eq]
  exact ⟨le_max_left _ _, max_le (by norm_num) (min_le_right _ _)⟩

theorem lrintf_le_of_le (y : ℚ) (m : ℤ) (h : y ≤ m) : lrintf y ≤ m := by
  have hf : ⌊y⌋ ≤ m := Int.floor_le_floor h |>.trans (by simp)
  rcases hf.lt_or_eq with hlt | heq
  · have h1 : lrintf y ≤ ⌊y⌋ + 1 := by
      unfold lrintf; dsimp only; split_ifs <;> omega
    omega
  · have hy : y = ⌊y⌋ := le_antisymm (by rw [heq]; exact h) (Int.floor_le y)
    unfold lrintf
    dsimp only
    rw [if_pos (by rw [← hy]; norm_num)]
    exact hf

theorem lrintf_ge_of_ge (y : ℚ) (m : ℤ) (h : (m : ℚ) ≤ y) : m ≤ lrintf y := by
  have hf : m ≤ ⌊y⌋ := Int.le_floor.mpr h
  have h1 : ⌊y⌋ ≤ lrintf y := by
    unfold lrintf; dsimp only; split_ifs <;> omega
  omega

theorem quantise_eq (v : ℚ) (h1 : -1 ≤ v) (h2 : v ≤ 1) :
    quantise v = lrintf (v * 8388607) ∧ -8388607 ≤ quantise v ∧ quantise v ≤ 8388607 := by
  have hu : lrintf (v * 8388607) ≤ 8388607 :=
    lrintf_le_of_le _ 8388607 (by push_cast; linarith)
  have hl : -8388607 ≤ lrintf (v * 8388607) :=
    lrintf_ge_of_ge _ (-8388607) (by push_cast; linarith)
  have hq : quantise v = lrintf (v * 8388607) := by
    unfold quantise
    dsimp only
    rw [if_neg (by omega), if_neg (by omega)]
  rw [hq]
  exact ⟨rfl, hl, hu⟩

theorem sample24_eq (x : ℚ) :
    sample24 x = lrintf (clipUnit x * 8388607) ∧ -8388607 ≤ sample24 x
      ∧ sample24 x ≤ 8388607 :=
  quantise_eq (clipUnit x) (clipUnit_bounds x).1 (clipUnit_bounds x).2

/-- C3, as stated, fails for the sample value `-1.0`: the three bytes emitted for it are
not `00 00 80`. -/
theorem minus_one_not_min_code :
    (emitted (File.fresh (fun _ => false)) (fun _ => -1) 1 48000).drop 44 ≠ [0, 0, 128] := by
  decide!

/-- C3, amended: encoding the sample value `1.0` emits `FF FF 7F` (the integer
`8388607`) and encoding `-1.0` emits `01 00 80` (the integer `-8388607`). -/
theorem full_scale_bytes :
    (emitted (File.fresh (fun _ => false)) (fun _ => 1) 1 48000).drop 44 = [255, 255, 127]
      ∧ sample24 1 = 8388607
      ∧ (emitted (File.fresh (fun _ => false)) (fun _ => -1) 1 48000).drop 44 = [1, 0, 128]
      ∧ sample24 (-1) = -8388607 := by
  decide!

/-- C5: for every sample value `x` the quantised integer `q` lies in
`[-8388608, 8388607]`, the three emitted bytes are below 256, and reading
`b1 + 256 * b2 + 65536 * b3` as a signed 24-bit two-complement number gives back `q`,
for negative and non-negative `q` alike. -/
theorem sample_bytes_twos_complement (x : ℚ) :
    -8388608 ≤ sample24 x ∧ sample24 x ≤ 8388607
      ∧ byte1 (sample24 x) < 256 ∧ byte2 (sample24 x) < 256 ∧ byte3 (sample24 x) < 256
      ∧ signed24 (byte1 (sample24 x) + 256 * byte2 (sample24 x) + 65536 * byte3 (sample24 x))
          = sample24 x := by
  obtain ⟨-, hl, hu⟩ := sample24_eq x
  generalize sample24 x = q at hl hu ⊢
  unfold signed24 byte1 byte2 byte3
  refine ⟨by omega, hu, by omega, by omega, by omega, ?_⟩
  split_ifs with h
  · push_cast; omega
  · push_cast; omega

/-- C6, as stated, fails: on a sink that rejects the first write, `writeWav24Bit` still
issues the later writes (the sink ends up holding the rest of the header and the sample
bytes), and `main` exits with status 0. -/
theorem write_failure_ignored :
    (File.fresh (fun k => k == 0)).failAt 0 = true
      ∧ (writeWav24Bit (File.fresh (fun k => k == 0)) (fun _ => 0) 1 48000).bytes
          = [39, 0, 0, 0, 87, 65, 86, 69, 102, 109, 116, 32, 16, 0, 0, 0, 1, 0, 1, 0,
             128, 187, 0, 0, 128, 50, 2, 0, 3, 0, 24, 0, 100, 97, 116, 97, 3, 0, 0, 0,
             0, 0, 0]
      ∧ (mainBody (fun _ => 0) ⟨1 / 2, 0, 1 / 2, 1⟩ (File.fresh (fun k => k == 0))).2 = 0 := by
  refine ⟨rfl, by decide!, rfl⟩

/-- C6, amended: `writeWav24Bit` never looks at the outcome of a write and returns
nothing: whatever writes the sink rejects, it issues all 13 header writes and all
`3 * n` sample writes, leaves the failure schedule of the sink as it was, and `main`
exits with status 0. -/
theorem writes_never_checked (sinf : ℚ → ℚ) (params : KickParams) (fp : File)
    (buffer : ℕ → ℚ) (n : ℕ) (r : ℤ) :
    (writeWav24Bit fp buffer n r).calls = fp.calls + 13 + 3 * n
      ∧ (writeWav24Bit fp buffer n r).failAt = fp.failAt
      ∧ (mainBody sinf params fp).2 = 0 :=
  ⟨writeWav24Bit_calls fp buffer n r,
    by rw [writeWav24Bit, writeSamples_failAt, writeHeader_failAt], rfl⟩

/-! ## Synthesiser lemmas -/

theorem kickLoop_indices (sinf : ℚ → ℚ) (L : Locals) (k n : ℕ) (s : KickState) :
    (kickLoop sinf L k n s).map Prod.fst = List.range' n k := by
  induction k generalizing n s with
  | zero => rfl
  | succ k ih => rw [kickLoop, List.map_cons, ih, List.range'_succ]

theorem kickLoop_length (sinf : ℚ → ℚ) (L : Locals) (k n : ℕ) (s : KickState) :
    (kickLoop sinf L k n s).length = k := by
  induction k generalizing n s with
  | zero => rfl
  | succ k ih => rw [kickLoop, List.length_cons, ih]

theorem kickLoop_untouched (sinf : ℚ → ℚ) (L : Locals) (k n : ℕ) (s : KickState)
    (b : ℕ → ℚ) (i : ℕ) (hi : i < n ∨ n + k ≤ i) :
    (kickLoop sinf L k n s).foldl (fun b st => Function.update b st.1 st.2) b i = b i := by
  induction k generalizing n s b with
  | zero => rfl
  | succ k ih =>
    rw [kickLoop, List.foldl_cons, ih _ _ _ (by omega)]
    exact Function.update_noteq (by omega) _ _

theorem kickLoop_stored (sinf : ℚ → ℚ) (L : Locals) (k n : ℕ) (b : ℕ → ℚ) (i : ℕ)
    (h1 : n ≤ i) (h2 : i < n + k) :
    (kickLoop sinf L k n (stateAfter sinf L n)).foldl
        (fun b st => Function.update b st.1 st.2) b i = sampleAt sinf L i := by
  induction k generalizing n b with
  | zero => omega
  | succ k ih =>
    rw [kickLoop, List.foldl_cons]
    rcases Nat.eq_or_lt_of_le h1 with h | h
    · subst h
      rw [kickLoop_untouched _ _ _ _ _ _ _ (Or.inl (Nat.lt_succ_self _))]
      exact Function.update_same _ _ _
    · exact ih (n + 1) _ h (by omega)

/-- C7: for every sample count `n`, sample rate and parameter set, `generateKick` stores
to the buffer indices `0, 1, ..., n - 1` in this order, each exactly once (so `n` stores
in all); afterwards every index below `n` holds the sample computed for it, every index
from `n` on is untouched, and `n = 0` performs no store. -/
theorem generateKick_fills_exactly (sinf : ℚ → ℚ) (buffer : ℕ → ℚ) (n : ℕ) (sampleRate : ℚ)
    (params : KickParams) :
    (kickStores sinf n sampleRate params).map Prod.fst = List.range n
      ∧ (kickStores sinf n sampleRate params).length = n
      ∧ (∀ i, i < n → generateKick sinf buffer n sampleRate params i
          = sampleAt sinf (locals sampleRate params) i)
      ∧ (∀ i, n ≤ i → generateKick sinf buffer n sampleRate params i = buffer i)
      ∧ kickStores sinf 0 sampleRate params = [] := by
  refine ⟨?_, ?_, ?_, ?_, rfl⟩
  · rw [kickStores, kickLoop_indices, List.range_eq_range']
  · rw [kickStores, kickLoop_length]
  · intro i hi
    exact kickLoop_stored sinf _ n 0 buffer i (Nat.zero_le i) (by omega)
  · intro i hi
    exact kickLoop_untouched sinf _ n 0 _ buffer i (Or.inr (by omega))

theorem ampIncrement_nonneg (L : Locals) : 0 ≤ L.ampIncrement := by
  unfold Locals.ampIncrement
  split_ifs
  · positivity
  · norm_num

theorem ampDecayRate_nonneg (L : Locals) : 0 ≤ L.ampDecayRate := by
  unfold Locals.ampDecayRate
  split_ifs
  · positivity
  · norm_num

theorem pitchIncrement_nonneg (L : Locals) : 0 ≤ L.pitchIncrement := by
  unfold Locals.pitchIncrement
  split_ifs
  · positivity
  · norm_num

theorem nextAmp_bounds (L : Locals) (n : ℕ) (a : ℚ) (h0 : 0 ≤ a) (h1 : a ≤ 1) :
    0 ≤ nextAmp L n a ∧ nextAmp L n a ≤ 1 := by
  have hi := ampIncrement_nonneg L
  have hd := ampDecayRate_nonneg L
  unfold nextAmp
  dsimp only
  split_ifs with h2 h3 h4
  · exact ⟨by norm_num, le_refl _⟩
  · exact ⟨by linarith, not_lt.mp h3⟩
  · exact ⟨le_refl _, by norm_num⟩
  · exact ⟨not_lt.mp h4, by linarith⟩

theorem nextPitchEnv_bounds (L : Locals) (n : ℕ) (p : ℚ) (h0 : 0 ≤ p) (h1 : p ≤ 1) :
    0 ≤ nextPitchEnv L n p ∧ nextPitchEnv L n p ≤ 1 := by
  have hi := pitchIncrement_nonneg L
  unfold nextPitchEnv
  dsimp only
  split_ifs with h2 h3
  · exact ⟨by norm_num, le_refl _⟩
  · exact ⟨by linarith, not_lt.mp h3⟩
  · exact ⟨h0, h1⟩

theorem stateAfter_succ_amp (sinf : ℚ → ℚ) (L : Locals) (n : ℕ) :
    (stateAfter sinf L (n + 1)).amp = nextAmp L n (stateAfter sinf L n).amp := rfl

theorem stateAfter_succ_pitchEnv (sinf : ℚ → ℚ) (L : Locals) (n : ℕ) :
    (stateAfter sinf L (n + 1)).pitchEnv = nextPitchEnv L n (stateAfter sinf L n).pitchEnv :=
  rfl

theorem envelope_bounds (sinf : ℚ → ℚ) (L : Locals) (n : ℕ) :
    (0 ≤ (stateAfter sinf L n).amp ∧ (stateAfter sinf L n).amp ≤ 1)
      ∧ (0 ≤ (stateAfter sinf L n).pitchEnv ∧ (stateAfter sinf L n).pitchEnv ≤ 1) := by
  induction n with
  | zero => simp [stateAfter, KickState.init]
  | succ n ih =>
    rw [stateAfter_succ_amp, stateAfter_succ_pitchEnv]
    exact ⟨nextAmp_bounds L n _ ih.1.1 ih.1.2, nextPitchEnv_bounds L n _ ih.2.1 ih.2.2⟩

/-- C8: for every parameter set, every sample rate and every number `n` of completed
loop iterations (including `n = 0`, the start), the accumulators `amp` and `pitchEnv`
of `generateKick` lie in `[0, 1]`. -/
theorem accumulators_in_unit_interval (sinf : ℚ → ℚ) (sampleRate : ℚ) (params : KickParams)
    (n : ℕ) :
    0 ≤ (stateAfter sinf (locals sampleRate params) n).amp
      ∧ (stateAfter sinf (locals sampleRate params) n).amp ≤ 1
      ∧ 0 ≤ (stateAfter sinf (locals sampleRate params) n).pitchEnv
      ∧ (stateAfter sinf (locals sampleRate params) n).pitchEnv ≤ 1 := by
  obtain ⟨⟨h1, h2⟩, h3, h4⟩ := envelope_bounds sinf (locals sampleRate params) n
  exact ⟨h1, h2, h3, h4⟩

theorem amp_zero_of_no_attack (sinf : ℚ → ℚ) (L : Locals) (h : L.attackSamples = 0) (n : ℕ) :
    (stateAfter sinf L n).amp = 0 := by
  induction n with
  | zero => rfl
  | succ n ih =>
    rw [stateAfter_succ_amp, ih]
    have hd := ampDecayRate_nonneg L
    unfold nextAmp
    dsimp only
    rw [if_neg (by omega)]
    split_ifs with h2
    · rfl
    · linarith [not_lt.mp h2]

theorem sampleAt_eq (sinf : ℚ → ℚ) (L : Locals) (n : ℕ) :
    sampleAt sinf L n
      = (if n < L.clickSamples then sinf (stateAfter sinf L n).phase + 0.5
          else sinf (stateAfter sinf L n).phase)
        * ((stateAfter sinf L (n + 1)).amp * L.level) := rfl

/-- C10, evaluated on the code: for `tune = 0.5, attack = -0.198, decay = 0.5, level = 1`
at 48000 Hz the attack sample count is 0 and the attack step is 1, yet the amplitude
accumulator is 0 after every sample, the first one included, and every output sample
is 0. -/
theorem zero_attack_is_silent :
    (locals 48000 ⟨0.5, -0.198, 0.5, 1⟩).attackSamples = 0
      ∧ (locals 48000 ⟨0.5, -0.198, 0.5, 1⟩).ampIncrement = 1
      ∧ (∀ (sinf : ℚ → ℚ) (n : ℕ),
          (stateAfter sinf (locals 48000 ⟨0.5, -0.198, 0.5, 1⟩) (n + 1)).amp = 0
            ∧ sampleAt sinf (locals 48000 ⟨0.5, -0.198, 0.5, 1⟩) n = 0) := by
  have h : (locals 48000 ⟨0.5, -0.198, 0.5, 1⟩).attackSamples = 0 := by decide!
  refine ⟨h, by decide!, fun sinf n => ?_⟩
  have ha := amp_zero_of_no_attack sinf _ h (n + 1)
  exact ⟨ha, by rw [sampleAt_eq, ha]; ring⟩

theorem generateKick_eq_sampleAt (sinf : ℚ → ℚ) (buffer : ℕ → ℚ) (n : ℕ) (sampleRate : ℚ)
    (params : KickParams) (i : ℕ) (hi : i < n) :
    generateKick sinf buffer n sampleRate params i
      = sampleAt sinf (locals sampleRate params) i :=
  kickLoop_stored sinf _ n 0 buffer i (Nat.zero_le i) (by omega)

theorem nextAmp_attack (L : Locals) (n : ℕ) (a : ℚ) (h : n < L.attackSamples) :
    nextAmp L n a = min 1 (a + 1 / (L.attackSamples : ℚ)) := by
  unfold nextAmp Locals.ampIncrement
  dsimp only
  have hA : L.attackSamples > 0 := by omega
  rw [if_pos h, if_pos hA]
  split_ifs with h2
  · exact (min_eq_left h2.le).symm
  · exact (min_eq_right (not_lt.mp h2)).symm

theorem amp_attack_step_le (sinf : ℚ → ℚ) (L : Locals) (k : ℕ) (h : k < L.attackSamples) :
    (stateAfter sinf L k).amp ≤ (stateAfter sinf L (k + 1)).amp := by
  rw [stateAfter_succ_amp, nextAmp_attack L k _ h]
  have hA : (0 : ℚ) < L.attackSamples := by exact_mod_cast (by omega : 0 < L.attackSamples)
  have hpos : (0 : ℚ) ≤ 1 / (L.attackSamples : ℚ) := by positivity
  exact le_min (envelope_bounds sinf L k).1.2 (by linarith)

theorem amp_attack_mono (sinf : ℚ → ℚ) (L : Locals) (m n : ℕ) (hmn : m ≤ n)
    (hn : n ≤ L.attackSamples) :
    (stateAfter sinf L m).amp ≤ (stateAfter sinf L n).amp := by
  induction n with
  | zero =>
    have : m = 0 := by omega
    subst this
    exact le_refl _
  | succ n ih =>
    rcases Nat.eq_or_lt_of_le hmn with h | h
    · subst h; exact le_refl _
    · exact (ih (by omega) (by omega)).trans (amp_attack_step_le sinf L n (by omega))

/-- C13: for every parameter set and sample rate and all indices `m ≤ n < attackSamples`,
the amplitude accumulator after sample `m` is at most the amplitude accumulator after
sample `n`. -/
theorem attack_is_monotone (sinf : ℚ → ℚ) (sampleRate : ℚ) (params : KickParams) (m n : ℕ)
    (hmn : m ≤ n) (hn : n < (locals sampleRate params).attackSamples) :
    (stateAfter sinf (locals sampleRate params) (m + 1)).amp
      ≤ (stateAfter sinf (locals sampleRate params) (n + 1)).amp :=
  amp_attack_mono sinf _ (m + 1) (n + 1) (by omega) (by omega)

theorem attack_is_monotone_witness :
    0 ≤ 1 ∧ 1 < (locals 48000 ⟨0.5, 0, 0.5, 1⟩).attackSamples
      ∧ (stateAfter (fun _ => 0) (locals 48000 ⟨0.5, 0, 0.5, 1⟩) (0 + 1)).amp
          ≤ (stateAfter (fun _ => 0) (locals 48000 ⟨0.5, 0, 0.5, 1⟩) (1 + 1)).amp :=
  ⟨by decide, by decide!,
    attack_is_monotone (fun _ => 0) 48000 ⟨0.5, 0, 0.5, 1⟩ 0 1 (by decide) (by decide!)⟩

theorem nextPitchEnv_ramp (L : Locals) (n : ℕ) (p : ℚ) (h : n < L.decaySamples) :
    nextPitchEnv L n p = min 1 (p + 1 / (L.decaySamples : ℚ)) := by
  unfold nextPitchEnv Locals.pitchIncrement
  dsimp only
  have hD : L.decaySamples > 0 := by omega
  rw [if_pos h, if_pos hD]
  split_ifs with h2
  · exact (min_eq_left h2.le).symm
  · exact (min_eq_right (not_lt.mp h2)).symm

theorem nextPitchEnv_hold (L : Locals) (n : ℕ) (p : ℚ) (h : L.decaySamples ≤ n) :
    nextPitchEnv L n p = p := by
  unfold nextPitchEnv
  rw [if_neg (by omega)]

theorem pitchEnv_zero_of_no_decay (sinf : ℚ → ℚ) (L : Locals) (h : L.decaySamples = 0) (n : ℕ) :
    (stateAfter sinf L n).pitchEnv = 0 := by
  induction n with
  | zero => rfl
  | succ n ih => rw [stateAfter_succ_pitchEnv, nextPitchEnv_hold L n _ (by omega), ih]

theorem pitchEnv_step_le (sinf : ℚ → ℚ) (L : Locals) (n : ℕ) :
    (stateAfter sinf L n).pitchEnv ≤ (stateAfter sinf L (n + 1)).pitchEnv := by
  rw [stateAfter_succ_pitchEnv]
  by_cases h : n < L.decaySamples
  · rw [nextPitchEnv_ramp L n _ h]
    have hD : (0 : ℚ) < L.decaySamples := by exact_mod_cast (by omega : 0 < L.decaySamples)
    have hpos : (0 : ℚ) ≤ 1 / (L.decaySamples : ℚ) := by positivity
    exact le_min (envelope_bounds sinf L n).2.2 (by linarith)
  · rw [nextPitchEnv_hold L n _ (by omega)]

theorem currFreq_eq (L : Locals) (p : ℚ) :
    currFreq L p = L.startFreq - (L.startFreq - L.baseFreq) * p := by
  unfold currFreq
  ring

theorem currFreq_between (L : Locals) (h : L.baseFreq ≤ L.startFreq) (p : ℚ) (h0 : 0 ≤ p)
    (h1 : p ≤ 1) : L.baseFreq ≤ currFreq L p ∧ currFreq L p ≤ L.startFreq := by
  rw [currFreq_eq]
  constructor
  · nlinarith
  · nlinarith

theorem currFreq_antitone (L : Locals) (h : L.baseFreq ≤ L.startFreq) (p q : ℚ) (hpq : p ≤ q) :
    currFreq L q ≤ currFreq L p := by
  rw [currFreq_eq, currFreq_eq]
  nlinarith

/-- C16: for every parameter set with `baseFreq ≤ startFreq` and every sample rate, the
frequency used at every sample `n` lies between `baseFreq` and `startFreq`, and the
frequency used at sample `n + 1` is at most the one used at sample `n`. -/
theorem frequency_sweeps_down (sinf : ℚ → ℚ) (sampleRate : ℚ) (params : KickParams) (n : ℕ)
    (h : baseFreq params ≤ startFreq params) :
    baseFreq params
        ≤ currFreq (locals sampleRate params)
            (stateAfter sinf (locals sampleRate params) (n + 1)).pitchEnv
      ∧ currFreq (locals sampleRate params)
            (stateAfter sinf (locals sampleRate params) (n + 1)).pitchEnv
          ≤ startFreq params
      ∧ currFreq (locals sampleRate params)
            (stateAfter sinf (locals sampleRate params) (n + 1 + 1)).pitchEnv
          ≤ currFreq (locals sampleRate params)
              (stateAfter sinf (locals sampleRate params) (n + 1)).pitchEnv := by
  have hL : (locals sampleRate params).baseFreq ≤ (locals sampleRate params).startFreq := h
  obtain ⟨-, h0, h1⟩ := envelope_bounds sinf (locals sampleRate params) (n + 1)
  obtain ⟨hlo, hhi⟩ := currFreq_between _ hL _ h0 h1
  exact ⟨hlo, hhi, currFreq_antitone _ hL _ _ (pitchEnv_step_le sinf _ (n + 1))⟩

theorem frequency_sweeps_down_witness :
    baseFreq ⟨0.5, 0, 0.5, 1⟩ ≤ startFreq ⟨0.5, 0, 0.5, 1⟩
      ∧ currFreq (locals 48000 ⟨0.5, 0, 0.5, 1⟩)
            (stateAfter (fun _ => 0) (locals 48000 ⟨0.5, 0, 0.5, 1⟩) (0 + 1 + 1)).pitchEnv
          ≤ currFreq (locals 48000 ⟨0.5, 0, 0.5, 1⟩)
              (stateAfter (fun _ => 0) (locals 48000 ⟨0.5, 0, 0.5, 1⟩) (0 + 1)).pitchEnv :=
  ⟨by decide!,
    (frequency_sweeps_down (fun _ => 0) 48000 ⟨0.5, 0, 0.5, 1⟩ 0 (by decide!)).2.2⟩

theorem TWO_PI_pos : 0 < TWO_PI := by
  unfold TWO_PI
  norm_num

theorem nextPhase_bounds (L : Locals) (freq phase : ℚ) (hsr : 0 < L.sampleRate) (hf0 : 0 ≤ freq)
    (hf1 : freq ≤ L.sampleRate) (h0 : 0 ≤ phase) (h1 : phase ≤ TWO_PI) :
    0 ≤ nextPhase L freq phase ∧ nextPhase L freq phase ≤ TWO_PI := by
  have hT := TWO_PI_pos
  have hq0 : 0 ≤ freq / L.sampleRate := div_nonneg hf0 hsr.le
  have hq1 : freq / L.sampleRate ≤ 1 := (div_le_one hsr).mpr hf1
  have hinc0 : 0 ≤ TWO_PI * freq / L.sampleRate := by
    rw [mul_div_assoc]; exact mul_nonneg hT.le hq0
  have hinc1 : TWO_PI * freq / L.sampleRate ≤ TWO_PI := by
    rw [mul_div_assoc]; nlinarith
  unfold nextPhase
  dsimp only
  split_ifs with h
  · constructor <;> linarith
  · exact ⟨by linarith, not_lt.mp h⟩

theorem stateAfter_succ_phase (sinf : ℚ → ℚ) (L : Locals) (n : ℕ) :
    (stateAfter sinf L (n + 1)).phase
      = nextPhase L (currFreq L (stateAfter sinf L (n + 1)).pitchEnv)
          (stateAfter sinf L n).phase := rfl

theorem phase_bounds (sinf : ℚ → ℚ) (L : Locals) (hsr : 0 < L.sampleRate)
    (hb : 0 ≤ L.baseFreq) (hbs : L.baseFreq ≤ L.startFreq) (hs : L.startFreq ≤ L.sampleRate)
    (n : ℕ) : 0 ≤ (stateAfter sinf L n).phase ∧ (stateAfter sinf L n).phase ≤ TWO_PI := by
  induction n with
  | zero => exact ⟨le_refl _, TWO_PI_pos.le⟩
  | succ n ih =>
    rw [stateAfter_succ_phase]
    obtain ⟨-, h0, h1⟩ := envelope_bounds sinf L (n + 1)
    obtain ⟨hlo, hhi⟩ := currFreq_between L hbs _ h0 h1
    exact nextPhase_bounds L _ _ hsr (hb.trans hlo) (hhi.trans hs) ih.1 ih.2

/-- C14, as stated, fails at a low sample rate: with in-range parameters
(`tune = 0.5, attack = 0, decay = 0.5, level = 1`) at the positive sample rate 100 Hz the
phase after the update of sample 0 is above `TWO_PI`. -/
theorem phase_escapes_at_low_rate :
    TWO_PI < (stateAfter (fun _ => 0) (locals 100 ⟨0.5, 0, 0.5, 1⟩) (0 + 1)).phase := by
  decide!

/-- C14, amended: for every parameter set with `tune ≥ 0` (in particular each value in
`[0, 1]`) and every sample rate not below `startFreq = 300 + 200 * tune`, the oscillator
phase of `generateKick` lies in `[0, TWO_PI]` at the start and after the update of every
sample. -/
theorem phase_wrapped_above_start_rate (sinf : ℚ → ℚ) (sampleRate : ℚ) (params : KickParams)
    (n : ℕ) (ht0 : 0 ≤ params.tune) (hsr : 300 + 200 * params.tune ≤ sampleRate) :
    0 ≤ (stateAfter sinf (locals sampleRate params) n).phase
      ∧ (stateAfter sinf (locals sampleRate params) n).phase ≤ TWO_PI := by
  refine phase_bounds sinf (locals sampleRate params) ?_ ?_ ?_ ?_ n
  · show 0 < sampleRate
    linarith
  · show 0 ≤ baseFreq params
    unfold baseFreq; linarith
  · show baseFreq params ≤ startFreq params
    unfold baseFreq startFreq; linarith
  · show startFreq params ≤ sampleRate
    unfold startFreq; exact hsr

theorem phase_wrapped_above_start_rate_witness :
    (0 : ℚ) ≤ (⟨0.5, 0, 0.5, 1⟩ : KickParams).tune
      ∧ 300 + 200 * (⟨0.5, 0, 0.5, 1⟩ : KickParams).tune ≤ (400 : ℚ)
      ∧ 0 ≤ (stateAfter (fun _ => 0) (locals 400 ⟨0.5, 0, 0.5, 1⟩) 3).phase
      ∧ (stateAfter (fun _ => 0) (locals 400 ⟨0.5, 0, 0.5, 1⟩) 3).phase ≤ TWO_PI :=
  ⟨by decide!, by decide!,
    phase_wrapped_above_start_rate (fun _ => 0) 400 ⟨0.5, 0, 0.5, 1⟩ 3 (by decide!) (by decide!)⟩

/-- C20: for every parameter set with `tune` in `[0, 1]` and every sample rate of at least
500, at every sample the frequency lies between 0 and the sample rate, the phase
increment `TWO_PI * currFreq / sampleRate` lies between 0 and `TWO_PI`, and the phase
after the update lies in `[0, TWO_PI]`. -/
theorem single_wrap_suffices (sinf : ℚ → ℚ) (sampleRate : ℚ) (params : KickParams)
    (n : ℕ) (ht0 : 0 ≤ params.tune) (ht1 : params.tune ≤ 1) (hsr : 500 ≤ sampleRate) :
    (0 ≤ currFreq (locals sampleRate params)
          (stateAfter sinf (locals sampleRate params) (n + 1)).pitchEnv
        ∧ currFreq (locals sampleRate params)
            (stateAfter sinf (locals sampleRate params) (n + 1)).pitchEnv ≤ sampleRate)
      ∧ (0 ≤ TWO_PI * currFreq (locals sampleRate params)
            (stateAfter sinf (locals sampleRate params) (n + 1)).pitchEnv / sampleRate
        ∧ TWO_PI * currFreq (locals sampleRate params)
            (stateAfter sinf (locals sampleRate params) (n + 1)).pitchEnv / sampleRate ≤ TWO_PI)
      ∧ 0 ≤ (stateAfter sinf (locals sampleRate params) (n + 1)).phase
      ∧ (stateAfter sinf (locals sampleRate params) (n + 1)).phase ≤ TWO_PI := by
  have hsr0 : (0 : ℚ) < sampleRate := by linarith
  have hb : 0 ≤ (locals sampleRate params).baseFreq := by
    show 0 ≤ baseFreq params
    unfold baseFreq; linarith
  have hbs : (locals sampleRate params).baseFreq ≤ (locals sampleRate params).startFreq := by
    show baseFreq params ≤ startFreq params
    unfold baseFreq startFreq; linarith
  have hs : (locals sampleRate params).startFreq ≤ sampleRate := by
    show startFreq params ≤ sampleRate
    unfold startFreq; linarith
  obtain ⟨-, h0, h1⟩ := envelope_bounds sinf (locals sampleRate params) (n + 1)
  obtain ⟨hlo, hhi⟩ := currFreq_between _ hbs _ h0 h1
  have hf0 := hb.trans hlo
  have hf1 := hhi.trans hs
  have hT := TWO_PI_pos
  refine ⟨⟨hf0, hf1⟩, ⟨?_, ?_⟩, phase_bounds sinf _ hsr0 hb hbs hs (n + 1)⟩
  · exact div_nonneg (mul_nonneg hT.le hf0) hsr0.le
  · rw [div_le_iff₀ hsr0]
    nlinarith

theorem single_wrap_suffices_witness :
    (0 : ℚ) ≤ (⟨0.5, 0, 0.5, 1⟩ : KickParams).tune ∧ (⟨0.5, 0, 0.5, 1⟩ : KickParams).tune ≤ 1
      ∧ (500 : ℚ) ≤ 48000
      ∧ 0 ≤ (stateAfter (fun _ => 0) (locals 48000 ⟨0.5, 0, 0.5, 1⟩) (0 + 1)).phase
      ∧ (stateAfter (fun _ => 0) (locals 48000 ⟨0.5, 0, 0.5, 1⟩) (0 + 1)).phase ≤ TWO_PI :=
  ⟨by decide!, by decide!, by decide!,
    (single_wrap_suffices (fun _ => 0) 48000 ⟨0.5, 0, 0.5, 1⟩ 0 (by decide!) (by decide!)
      (by decide!)).2.2⟩

theorem amp_attack_le (sinf : ℚ → ℚ) (L : Locals) (k : ℕ) (h : k ≤ L.attackSamples)
    (hA : 0 < L.attackSamples) :
    (stateAfter sinf L k).amp ≤ (k : ℚ) / L.attackSamples := by
  have hpos : (0 : ℚ) < L.attackSamples := by exact_mod_cast hA
  induction k with
  | zero => simp [stateAfter, KickState.init]
  | succ k ih =>
    rw [stateAfter_succ_amp, nextAmp_attack L k _ (by omega)]
    push_cast
    rw [add_div]
    exact (min_le_right _ _).trans (by linarith [ih (by omega)])

theorem click_within_half_attack (sampleRate : ℚ) (params : KickParams)
    (ha : 0 ≤ params.attack) :
    2 * (locals sampleRate params).clickSamples ≤ (locals sampleRate params).attackSamples := by
  show 2 * toSizeT (clickDuration * sampleRate) ≤ toSizeT (attackTime params * sampleRate)
  unfold toSizeT clickDuration attackTime
  rcases le_or_lt 0 sampleRate with hs | hs
  · have h1 : (0 : ℚ) ≤ 0.0005 * sampleRate := by positivity
    have hf : 0 ≤ ⌊(0.0005 : ℚ) * sampleRate⌋ := Int.floor_nonneg.mpr h1
    have h2 : 2 * ⌊(0.0005 : ℚ) * sampleRate⌋ ≤ ⌊(0.001 + 0.005 * params.attack) * sampleRate⌋ := by
      rw [Int.le_floor]
      push_cast
      have := Int.floor_le ((0.0005 : ℚ) * sampleRate)
      nlinarith
    omega
  · have h1 : (0.0005 : ℚ) * sampleRate < 0 := by nlinarith
    have hf : ⌊(0.0005 : ℚ) * sampleRate⌋ < 0 := by
      rw [Int.floor_lt]; exact_mod_cast h1
    omega

theorem amp_half_in_click (sinf : ℚ → ℚ) (L : Locals) (n : ℕ) (hn : n < L.clickSamples)
    (hc : 2 * L.clickSamples ≤ L.attackSamples) :
    (stateAfter sinf L (n + 1)).amp ≤ 1 / 2 := by
  have hA : 0 < L.attackSamples := by omega
  have hpos : (0 : ℚ) < L.attackSamples := by exact_mod_cast hA
  refine (amp_attack_le sinf L (n + 1) (by omega) hA).trans ?_
  rw [div_le_iff₀ hpos]
  have : (2 : ℚ) * ((n : ℚ) + 1) ≤ L.attackSamples := by exact_mod_cast (by omega : 2 * (n + 1) ≤ L.attackSamples)
  push_cast
  linarith

theorem sampleAt_bounds (sinf : ℚ → ℚ) (L : Locals) (n : ℕ) (hsin : ∀ x, |sinf x| ≤ 1)
    (hl0 : 0 ≤ L.level) (hl1 : L.level ≤ 1) (hc : 2 * L.clickSamples ≤ L.attackSamples) :
    |sampleAt sinf L n| ≤ 1
      ∧ (n < L.clickSamples → |sampleAt sinf L n| ≤ 0.75 * L.level) := by
  obtain ⟨⟨ha0, ha1⟩, -⟩ := envelope_bounds sinf L (n + 1)
  have hs := abs_le.mp (hsin (stateAfter sinf L n).phase)
  have hg0 : 0 ≤ (stateAfter sinf L (n + 1)).amp * L.level := mul_nonneg ha0 hl0
  rw [sampleAt_eq]
  by_cases hn : n < L.clickSamples
  · have hhalf := amp_half_in_click sinf L n hn hc
    have hg1 : (stateAfter sinf L (n + 1)).amp * L.level ≤ 1 / 2 * L.level :=
      mul_le_mul_of_nonneg_right hhalf hl0
    have key : |(sinf (stateAfter sinf L n).phase + 0.5)
        * ((stateAfter sinf L (n + 1)).amp * L.level)| ≤ 0.75 * L.level := by
      rw [abs_mul, abs_of_nonneg hg0]
      have h15 : |sinf (stateAfter sinf L n).phase + 0.5| ≤ 1.5 := by
        rw [abs_le]; constructor <;> norm_num <;> linarith [hs.1, hs.2]
      calc |sinf (stateAfter sinf L n).phase + 0.5| * ((stateAfter sinf L (n + 1)).amp * L.level)
          ≤ 1.5 * (1 / 2 * L.level) :=
            mul_le_mul h15 hg1 hg0 (by norm_num)
        _ = 0.75 * L.level := by ring
    rw [if_pos hn]
    exact ⟨key.trans (by linarith), fun _ => key⟩
  · rw [if_neg hn]
    refine ⟨?_, fun h => absurd h hn⟩
    rw [abs_mul, abs_of_nonneg hg0]
    have hg1 : (stateAfter sinf L (n + 1)).amp * L.level ≤ 1 := by nlinarith
    calc |sinf (stateAfter sinf L n).phase| * ((stateAfter sinf L (n + 1)).amp * L.level)
        ≤ 1 * 1 := mul_le_mul (hsin _) hg1 hg0 (by norm_num)
      _ = 1 := by norm_num

theorem clipUnit_id (x : ℚ) (h : |x| ≤ 1) : clipUnit x = x := by
  obtain ⟨h1, h2⟩ := abs_le.mp h
  rw [clipUnit_eq, min_eq_left h2, max_eq_right h1]

/-- C17: for a `sinf` with values in `[-1, 1]`, every parameter set with `attack ≥ 0` and
`level` in `[0, 1]` and every sample rate, every output sample of `generateKick` lies in
`[-1, 1]`, so the first clip of the writer leaves it unchanged; `attackSamples` is at
least twice `clickSamples`, and inside the click window the amplitude is at most `1 / 2`
and the sample at most `0.75 * level` in absolute value. -/
theorem samples_within_unit_range (sinf : ℚ → ℚ) (buffer : ℕ → ℚ) (numSamples : ℕ)
    (sampleRate : ℚ) (params : KickParams) (n : ℕ) (hsin : ∀ x, |sinf x| ≤ 1)
    (ha : 0 ≤ params.attack) (hl0 : 0 ≤ params.level) (hl1 : params.level ≤ 1)
    (hn : n < numSamples) :
    |generateKick sinf buffer numSamples sampleRate params n| ≤ 1
      ∧ clipUnit (generateKick sinf buffer numSamples sampleRate params n)
          = generateKick sinf buffer numSamples sampleRate params n
      ∧ 2 * (locals sampleRate params).clickSamples ≤ (locals sampleRate params).attackSamples
      ∧ (n < (locals sampleRate params).clickSamples →
          (stateAfter sinf (locals sampleRate params) (n + 1)).amp ≤ 1 / 2
            ∧ |generateKick sinf buffer numSamples sampleRate params n|
                ≤ 0.75 * params.level) := by
  have hc := click_within_half_attack sampleRate params ha
  obtain ⟨h1, h2⟩ := sampleAt_bounds sinf (locals sampleRate params) n hsin hl0 hl1 hc
  rw [generateKick_eq_sampleAt _ _ _ _ _ _ hn]
  exact ⟨h1, clipUnit_id _ h1, hc, fun h => ⟨amp_half_in_click sinf _ n h hc, h2 h⟩⟩

theorem samples_within_unit_range_witness :
    (∀ x : ℚ, |(fun _ : ℚ => (0 : ℚ)) x| ≤ 1) ∧ (0 : ℚ) ≤ (⟨0.5, 0, 0.5, 1⟩ : KickParams).attack
      ∧ (0 : ℚ) ≤ (⟨0.5, 0, 0.5, 1⟩ : KickParams).level
      ∧ (⟨0.5, 0, 0.5, 1⟩ : KickParams).level ≤ 1 ∧ 0 < 48000
      ∧ |generateKick (fun _ => 0) (fun _ => 0) 48000 48000 ⟨0.5, 0, 0.5, 1⟩ 0| ≤ 1 :=
  ⟨fun _ => by norm_num, by decide!, by decide!, by decide!, by decide,
    (samples_within_unit_range (fun _ => 0) (fun _ => 0) 48000 48000 ⟨0.5, 0, 0.5, 1⟩ 0
      (fun _ => by norm_num) (by decide!) (by decide!) (by decide!) (by decide)).1⟩

/-- C18: for every sample value `x`, the integer obtained by rounding
`clamp(x, -1, 1) * 8388607` lies in `[-8388607, 8388607]`; the second clip leaves it
unchanged, the quantised value is never `-8388608`, and the bytes `00 00 80` are never
the three bytes of a sample. -/
theorem second_clip_is_idle (x : ℚ) :
    -8388607 ≤ lrintf (max (-1) (min x 1) * 8388607)
      ∧ lrintf (max (-1) (min x 1) * 8388607) ≤ 8388607
      ∧ sample24 x = lrintf (max (-1) (min x 1) * 8388607)
      ∧ sample24 x ≠ -8388608
      ∧ [byte1 (sample24 x), byte2 (sample24 x), byte3 (sample24 x)] ≠ [0, 0, 128] := by
  obtain ⟨he, hl, hu⟩ := sample24_eq x
  rw [← clipUnit_eq, ← he]
  refine ⟨hl, hu, rfl, by omega, ?_⟩
  intro hb
  simp only [List.cons.injEq, and_true] at hb
  obtain ⟨h1, h2, h3⟩ := hb
  unfold byte1 at h1
  unfold byte2 at h2
  unfold byte3 at h3
  omega

theorem stateAfter_level (sinf : ℚ → ℚ) (sampleRate t a d l : ℚ) (n : ℕ) :
    stateAfter sinf (locals sampleRate ⟨t, a, d, l⟩) n
      = stateAfter sinf (locals sampleRate ⟨t, a, d, 1⟩) n := by
  induction n with
  | zero => rfl
  | succ n ih =>
    show (kickBody sinf (locals sampleRate ⟨t, a, d, l⟩) n
        (stateAfter sinf (locals sampleRate ⟨t, a, d, l⟩) n)).1
      = (kickBody sinf (locals sampleRate ⟨t, a, d, 1⟩) n
        (stateAfter sinf (locals sampleRate ⟨t, a, d, 1⟩) n)).1
    rw [ih]
    rfl

theorem sampleAt_level (sinf : ℚ → ℚ) (sampleRate t a d l : ℚ) (n : ℕ) :
    sampleAt sinf (locals sampleRate ⟨t, a, d, l⟩) n
      = l * sampleAt sinf (locals sampleRate ⟨t, a, d, 1⟩) n := by
  rw [sampleAt_eq, sampleAt_eq, stateAfter_level sinf sampleRate t a d l n,
    stateAfter_level sinf sampleRate t a d l (n + 1)]
  show (if n < (locals sampleRate ⟨t, a, d, 1⟩).clickSamples
        then sinf (stateAfter sinf (locals sampleRate ⟨t, a, d, 1⟩) n).phase + 0.5
        else sinf (stateAfter sinf (locals sampleRate ⟨t, a, d, 1⟩) n).phase)
      * ((stateAfter sinf (locals sampleRate ⟨t, a, d, 1⟩) (n + 1)).amp * l)
    = l * ((if n < (locals sampleRate ⟨t, a, d, 1⟩).clickSamples
        then sinf (stateAfter sinf (locals sampleRate ⟨t, a, d, 1⟩) n).phase + 0.5
        else sinf (stateAfter sinf (locals sampleRate ⟨t, a, d, 1⟩) n).phase)
      * ((stateAfter sinf (locals sampleRate ⟨t, a, d, 1⟩) (n + 1)).amp * 1))
  ring

/-- C19: for every tune, attack, decay, sample rate, sample count, level `l` and index `n`
below the sample count, output sample `n` with level `l` equals `l` times output sample
`n` with level 1; the loop locals and the frequency do not depend on the level; with
level 0 the sample is 0. -/
theorem level_is_a_gain (sinf : ℚ → ℚ) (buffer : ℕ → ℚ) (numSamples : ℕ)
    (sampleRate t a d l : ℚ) (n : ℕ) (hn : n < numSamples) :
    generateKick sinf buffer numSamples sampleRate ⟨t, a, d, l⟩ n
        = l * generateKick sinf buffer numSamples sampleRate ⟨t, a, d, 1⟩ n
      ∧ stateAfter sinf (locals sampleRate ⟨t, a, d, l⟩) (n + 1)
          = stateAfter sinf (locals sampleRate ⟨t, a, d, 1⟩) (n + 1)
      ∧ currFreq (locals sampleRate ⟨t, a, d, l⟩)
            (stateAfter sinf (locals sampleRate ⟨t, a, d, l⟩) (n + 1)).pitchEnv
          = currFreq (locals sampleRate ⟨t, a, d, 1⟩)
              (stateAfter sinf (locals sampleRate ⟨t, a, d, 1⟩) (n + 1)).pitchEnv
      ∧ generateKick sinf buffer numSamples sampleRate ⟨t, a, d, 0⟩ n = 0 := by
  refine ⟨?_, stateAfter_level sinf sampleRate t a d l (n + 1), ?_, ?_⟩
  · rw [generateKick_eq_sampleAt _ _ _ _ _ _ hn, generateKick_eq_sampleAt _ _ _ _ _ _ hn]
    exact sampleAt_level sinf sampleRate t a d l n
  · rw [stateAfter_level sinf sampleRate t a d l (n + 1)]
    rfl
  · rw [generateKick_eq_sampleAt _ _ _ _ _ _ hn, sampleAt_level]
    ring

theorem level_is_a_gain_witness :
    3 < 48000
      ∧ generateKick (fun _ => 0) (fun _ => 0) 48000 48000 ⟨0.5, 0, 0.5, 0.25⟩ 3
          = 0.25 * generateKick (fun _ => 0) (fun _ => 0) 48000 48000 ⟨0.5, 0, 0.5, 1⟩ 3 :=
  ⟨by decide,
    (level_is_a_gain (fun _ => 0) (fun _ => 0) 48000 48000 0.5 0 0.5 0.25 3 (by decide)).1⟩

theorem first_amp (sinf : ℚ → ℚ) (L : Locals) (hA : 1 ≤ L.attackSamples) :
    (stateAfter sinf L 1).amp = 1 / (L.attackSamples : ℚ) := by
  have hpos : (1 : ℚ) ≤ L.attackSamples := by exact_mod_cast hA
  rw [stateAfter_succ_amp, nextAmp_attack L 0 _ (by omega)]
  show min 1 (0 + 1 / (L.attackSamples : ℚ)) = 1 / (L.attackSamples : ℚ)
  rw [zero_add, min_eq_right]
  rw [div_le_one (by linarith)]
  exact hpos

theorem first_sample (sinf : ℚ → ℚ) (L : Locals) (hA : 1 ≤ L.attackSamples)
    (hC : 1 ≤ L.clickSamples) :
    sampleAt sinf L 0 = (sinf 0 + 0.5) * (1 / (L.attackSamples : ℚ)) * L.level := by
  rw [sampleAt_eq, if_pos (by omega), first_amp sinf L hA]
  show (sinf 0 + 0.5) * (1 / (L.attackSamples : ℚ) * L.level) = _
  ring

theorem scenario_first_bytes : sampleBytes (1 / 96) = [85, 85, 1] ∧ sample24 (1 / 96) = 87381 := by
  decide!

/-- C15: when `sinf 0 = 0`, for every parameter set and sample rate with at least one
sample, `attackSamples ≥ 1` and `clickSamples ≥ 1`, the first output sample of
`generateKick` is `(sinf 0 + 0.5) * (1 / attackSamples) * level`, which is
`0.5 * level / attackSamples`.  For `tune = 0.5, attack = 0, decay = 0.5, level = 1` at
48000 Hz with 48000 samples, `attackSamples` is 48, the first sample is `1 / 96`, and the
three bytes after the 44-byte header are `55 55 01`, the integer 87381. -/
theorem first_output_sample (sinf : ℚ → ℚ) (buffer : ℕ → ℚ) (numSamples : ℕ) (sampleRate : ℚ)
    (params : KickParams) (hs : sinf 0 = 0) (hN : 1 ≤ numSamples)
    (hA : 1 ≤ (locals sampleRate params).attackSamples)
    (hC : 1 ≤ (locals sampleRate params).clickSamples) :
    generateKick sinf buffer numSamples sampleRate params 0
        = (sinf 0 + 0.5) * (1 / ((locals sampleRate params).attackSamples : ℚ)) * params.level
      ∧ generateKick sinf buffer numSamples sampleRate params 0
        = 0.5 * params.level / ((locals sampleRate params).attackSamples : ℚ)
      ∧ (locals 48000 ⟨0.5, 0, 0.5, 1⟩).attackSamples = 48
      ∧ generateKick sinf (fun _ => 0) 48000 48000 ⟨0.5, 0, 0.5, 1⟩ 0 = 1 / 96
      ∧ ((emitted (File.fresh (fun _ => false))
            (generateKick sinf (fun _ => 0) 48000 48000 ⟨0.5, 0, 0.5, 1⟩) 48000 48000).drop 44).take 3
          = [85, 85, 1]
      ∧ sample24 (1 / 96) = 87381 := by
  have hgen : generateKick sinf buffer numSamples sampleRate params 0
      = (sinf 0 + 0.5) * (1 / ((locals sampleRate params).attackSamples : ℚ)) * params.level := by
    rw [generateKick_eq_sampleAt _ _ _ _ _ _ (by omega : 0 < numSamples)]
    exact first_sample sinf _ hA hC
  have hA48 : (locals 48000 ⟨0.5, 0, 0.5, 1⟩).attackSamples = 48 := by decide!
  have hC24 : 1 ≤ (locals 48000 ⟨0.5, 0, 0.5, 1⟩).clickSamples := by decide!
  have hsc : generateKick sinf (fun _ => 0) 48000 48000 ⟨0.5, 0, 0.5, 1⟩ 0 = 1 / 96 := by
    rw [generateKick_eq_sampleAt _ _ _ _ _ _ (by decide : 0 < 48000),
      first_sample sinf _ (by rw [hA48]; decide) hC24, hA48, hs]
    show ((0 : ℚ) + 0.5) * (1 / ((48 : ℕ) : ℚ)) * 1 = 1 / 96
    norm_num
  refine ⟨hgen, ?_, hA48, hsc, ?_, scenario_first_bytes.2⟩
  · rw [hgen, hs]; ring
  · have h3 := sample_triple (File.fresh (fun _ => false))
      (generateKick sinf (fun _ => 0) 48000 48000 ⟨0.5, 0, 0.5, 1⟩) 48000 48000
      (fun _ => rfl) 0 (by decide)
    rw [hsc] at h3
    rw [← scenario_first_bytes.1]
    exact h3

theorem first_output_sample_witness :
    (fun _ : ℚ => (0 : ℚ)) 0 = 0 ∧ 1 ≤ 48000
      ∧ 1 ≤ (locals 48000 ⟨0.5, 0, 0.5, 1⟩).attackSamples
      ∧ 1 ≤ (locals 48000 ⟨0.5, 0, 0.5, 1⟩).clickSamples
      ∧ generateKick (fun _ => 0) (fun _ => 0) 48000 48000 ⟨0.5, 0, 0.5, 1⟩ 0 = 1 / 96 :=
  ⟨rfl, by decide, by decide!, by decide!,
    (first_output_sample (fun _ => 0) (fun _ => 0) 48000 48000 ⟨0.5, 0, 0.5, 1⟩ rfl (by decide)
      (by decide!) (by decide!)).2.2.2.1⟩

end Kick
